import Mathlib

/-!
# Verification of `freefem_magic.py`

A shallow embedding of the IPython extension `freefem_magic.py` and proofs
about it.  The module under study has three pieces:

* `TemporaryFreeFemFile` — stages a batch of script strings into uniquely
  named `.edp` files inside a fresh scratch directory and removes the whole
  directory on scope exit;
* three process runners (`run_ff_file`, `convert_png`, `convert_svg`) that
  check the input path exists, spawn an external executable, and raise
  `FreeFemException` carrying the captured stdout on a non-zero exit;
* the `freefem` line/cell magic that resolves which script to run, writes the
  cell body to disk, runs the interpreter, and optionally converts and
  displays an image.

Modelling conventions.  The filesystem is an association list from path to
contents where a write prepends (so lookup sees the newest entry, matching
`open(path, "w")` overwrite semantics).  External processes are an oracle
mapping an argv to an exit code plus captured stdout/stderr.  Side effects
(spawned processes, `print` traces, file writes, scratch-directory creation
and removal) are recorded in an event trace.  Python exceptions become an
error type: `FreeFemException`, `IOError`, and `NameError` — the last one
because `convert_png`/`convert_svg` build their "File not found" message from
the name `ff_file`, which is not bound in their scope, so CPython raises
`NameError` there.  `tempfile.mkstemp`'s unique random basenames are modelled
by a deterministic injective naming scheme (`stagedName`); the property the
code relies on — names are pairwise distinct, live in the scratch directory
and carry the `.edp` suffix — is preserved exactly.
-/

namespace FreeFemMagic

/-- Result of one external-process invocation: exit status plus the fully
captured standard output and standard error (`Popen` + `communicate`). -/
structure ProcResult where
  returncode : Int
  stdout : String
  stderr : String
deriving DecidableEq

/-- The external world: what each spawned argv would return. -/
abbrev Oracle := List String → ProcResult

/-- The filesystem as an association list path ↦ contents; the first match
wins, so prepending models an overwriting write. -/
abbrev FileSystem := List (String × String)

/-- `open(p, "w"); write(c)` — overwrite `p` with contents `c`. -/
def fsWrite (fs : FileSystem) (p c : String) : FileSystem :=
  (p, c) :: fs

/-- Contents at path `p`, if the file exists. -/
def fsLookup (fs : FileSystem) (p : String) : Option String :=
  (fs.find? (fun e => e.1 == p)).map (fun e => e.2)

/-- `os.path.exists(p)`. -/
def fsExists (fs : FileSystem) (p : String) : Bool :=
  (fsLookup fs p).isSome

/-- `p` lies strictly inside directory `dir`, i.e. `dir ++ "/"` is a prefix
of `p`. -/
def underDir (dir p : String) : Bool :=
  (dir ++ "/").toList.isPrefixOf p.toList

/-- `shutil.rmtree dir` — drop every entry lying under `dir`. -/
def fsRemoveTree (fs : FileSystem) (dir : String) : FileSystem :=
  fs.filter (fun e => ! underDir dir e.1)

/-- Observable side effects of the embedded code. -/
inductive Event where
  | spawn (argv : List String)
  | printed (s : String)
  | fswrite (path content : String)
  | mkdtemp (dir : String)
  | rmtree (dir : String)
deriving DecidableEq

/-- Python exceptions reachable in this module.  `freeFemException` is the
class `FreeFemException(RuntimeError)` whose message is the interpreter's
captured stdout; `ioError` is `IOError("File not found: " + path)`;
`nameError` models CPython's `NameError` raised when an unbound name is
evaluated. -/
inductive FFError where
  | freeFemException (msg : String)
  | ioError (msg : String)
  | nameError (name : String)
deriving DecidableEq

/-- Argv of the interpreter invocation (source line 182). -/
def ffArgv (f : String) : List String :=
  ["FreeFem++", "-nowait", "-nw", "-ne", f]

/-- Argv of the raster conversion (source line 147). -/
def pngArgv (f : String) : List String :=
  ["inkscape", "-z", "-f", f, "-e", f ++ ".png"]

/-- Argv of the vector conversion (source line 163). -/
def svgArgv (f : String) : List String :=
  ["inkscape", "-z", "-f", f, "-l", f ++ ".svg"]

/-- `FreeFemMagic.run_ff_file` (source lines 174–189): check the script
exists, spawn the interpreter, and either raise `FreeFemException(stdout)`
on non-zero exit or print and return the captured stdout. -/
def run_ff_file (fs : FileSystem) (proc : Oracle) (ff_file : String) :
    Except FFError String × List Event :=
  if fsExists fs ff_file then
    let r := proc (ffArgv ff_file)
    if r.returncode ≠ 0 then
      (Except.error (FFError.freeFemException r.stdout), [Event.spawn (ffArgv ff_file)])
    else
      (Except.ok r.stdout, [Event.spawn (ffArgv ff_file), Event.printed r.stdout])
  else
    (Except.error (FFError.ioError ("File not found: " ++ ff_file)), [])

/-- `FreeFemMagic.convert_png` (source lines 142–156).  When the input is
missing the raise at line 145 evaluates `"File not found: " + ff_file`, but
`ff_file` is not a name in this function's scope, so the embedded code raises
`NameError` for the unbound name rather than the intended `IOError`. -/
def convert_png (fs : FileSystem) (proc : Oracle) (img_eps_file : String) :
    Except FFError String × List Event :=
  if fsExists fs img_eps_file then
    let r := proc (pngArgv img_eps_file)
    if r.returncode ≠ 0 then
      (Except.error (FFError.freeFemException r.stdout), [Event.spawn (pngArgv img_eps_file)])
    else
      (Except.ok (img_eps_file ++ ".png"),
        [Event.spawn (pngArgv img_eps_file), Event.printed r.stdout])
  else
    (Except.error (FFError.nameError "ff_file"), [])

/-- `FreeFemMagic.convert_svg` (source lines 158–172); same unbound-name
situation at line 161 as in `convert_png`. -/
def convert_svg (fs : FileSystem) (proc : Oracle) (img_eps_file : String) :
    Except FFError String × List Event :=
  if fsExists fs img_eps_file then
    let r := proc (svgArgv img_eps_file)
    if r.returncode ≠ 0 then
      (Except.error (FFError.freeFemException r.stdout), [Event.spawn (svgArgv img_eps_file)])
    else
      (Except.ok (img_eps_file ++ ".svg"),
        [Event.spawn (svgArgv img_eps_file), Event.printed r.stdout])
  else
    (Except.error (FFError.nameError "ff_file"), [])

/-- Argument of `TemporaryFreeFemFile.__init__`: either a bare string or a
list of strings (Python passes either dynamically). -/
inductive FFCodes where
  | single (s : String)
  | batch (l : List String)

/-- Source lines 50–51: `if not isinstance(ff_codes, list): ff_codes = [ff_codes]`. -/
def normalizeCodes : FFCodes → List String
  | FFCodes.single s => [s]
  | FFCodes.batch l => l

/-- The unique basename `tempfile.mkstemp(suffix=".edp", dir=tmp_dir)` hands
out for the `i`-th staged file, modelled deterministically and injectively:
the `i`-th name has a body of `i` copies of `f`, so distinct indices give
distinct names. -/
def stagedName (dir : String) (i : Nat) : String :=
  dir ++ "/" ++ String.mk (List.replicate i 'f') ++ ".edp"

/-- The state of a `TemporaryFreeFemFile` object after `__init__`. -/
structure TemporaryFreeFemFile where
  tmp_dir : String
  ff_files : List String
deriving DecidableEq

/-- The staging loop of `__init__` (source lines 52–57): for each code string
make a fresh `.edp` file in `dir` and write the string into it, collecting
the file paths in order. -/
def stageFiles (dir : String) : List String → Nat → FileSystem → List String × FileSystem
  | [], _, fs => ([], fs)
  | c :: cs, i, fs =>
    let f := stagedName dir i
    let r := stageFiles dir cs (i + 1) (fsWrite fs f c)
    (f :: r.1, r.2)

/-- `TemporaryFreeFemFile.__init__` (source lines 40–57): make a fresh
scratch directory `tmp_dir` (`tempfile.mkdtemp`, the caller supplies the
fresh name), normalize the argument to a list, and stage one file per
string. -/
def tffInit (fs : FileSystem) (tmp_dir : String) (ff_codes : FFCodes) :
    TemporaryFreeFemFile × FileSystem :=
  let codes := normalizeCodes ff_codes
  let r := stageFiles tmp_dir codes 0 fs
  (⟨tmp_dir, r.1⟩, r.2)

/-- `TemporaryFreeFemFile.__exit__` (source lines 62–63): remove the scratch
directory tree, ignoring the exception information entirely. -/
def tffExit (t : TemporaryFreeFemFile) (fs : FileSystem)
    (_excInfo : Option FFError) : FileSystem :=
  fsRemoveTree fs t.tmp_dir

/-- The parsed magic arguments (source lines 78–94): optional positional
`ff_file`, the flags `display` (short `-dp`), `displaysvg` (short `-dsvg`)
and `write` (short `-w`); every flag defaults to `None`. -/
structure Args where
  ff_file : Option String
  display : Option String
  displaysvg : Option String
  write : Option String
deriving DecidableEq

/-- Python truthiness of an optional string (`if args.write:` etc.): `None`
and the empty string are falsy. -/
def truthy : Option String → Bool
  | none => false
  | some s => ! s.isEmpty

/-- The value IPython would display. -/
inductive DisplayHandle where
  | image (filename : String)
  | svg (filename : String)
deriving DecidableEq

/-- Source lines 118–126: start from the fixed candidate `'temp.edp'`; when a
cell body is present, switch the candidate to `<write-root>.edp` if `--write`
was given, and write the body to the candidate.  Returns the candidate name,
the updated filesystem and the write events. -/
def stageCell (fs : FileSystem) (args : Args) (cell : Option String) :
    String × FileSystem × List Event :=
  match cell with
  | none => ("temp.edp", fs, [])
  | some c =>
    let f := if truthy args.write then args.write.getD "" ++ ".edp" else "temp.edp"
    (f, fsWrite fs f c, [Event.fswrite f c])

/-- Source lines 128–129: a truthy positional `ff_file` overrides the
candidate. -/
def overrideFile (args : Args) (f : String) : String :=
  if truthy args.ff_file then args.ff_file.getD "" else f

/-- `FreeFemMagic.freefem` (source lines 96–138): resolve the script path,
run the interpreter, then — independently — convert and return an `Image`
handle if `--display` is truthy, else an `SVG` handle if `--displaysvg` is
truthy, else return `None`.  Any raised error propagates unchanged. -/
def freefem (fs : FileSystem) (proc : Oracle) (args : Args) (cell : Option String) :
    Except FFError (Option DisplayHandle) × FileSystem × List Event :=
  let staged := stageCell fs args cell
  let ff_file := overrideFile args staged.1
  let run := run_ff_file staged.2.1 proc ff_file
  match run.1 with
  | Except.error e => (Except.error e, staged.2.1, staged.2.2 ++ run.2)
  | Except.ok _std_out =>
    if truthy args.display then
      let conv := convert_png staged.2.1 proc (args.display.getD "")
      match conv.1 with
      | Except.error e => (Except.error e, staged.2.1, staged.2.2 ++ run.2 ++ conv.2)
      | Except.ok p =>
        (Except.ok (some (DisplayHandle.image p)), staged.2.1, staged.2.2 ++ run.2 ++ conv.2)
    else if truthy args.displaysvg then
      let conv := convert_svg staged.2.1 proc (args.displaysvg.getD "")
      match conv.1 with
      | Except.error e => (Except.error e, staged.2.1, staged.2.2 ++ run.2 ++ conv.2)
      | Except.ok p =>
        (Except.ok (some (DisplayHandle.svg p)), staged.2.1, staged.2.2 ++ run.2 ++ conv.2)
    else
      (Except.ok none, staged.2.1, staged.2.2 ++ run.2)

/-! ## Basic filesystem lemmas -/

theorem fsLookup_fsWrite_same (fs : FileSystem) (p c : String) :
    fsLookup (fsWrite fs p c) p = some c := by
  simp [fsLookup, fsWrite, List.find?_cons_of_pos]

theorem fsLookup_fsWrite_other (fs : FileSystem) (p q c : String) (h : q ≠ p) :
    fsLookup (fsWrite fs p c) q = fsLookup fs q := by
  have hpq : ((p, c).1 == q) = false := by
    simp [Ne.symm h]
  simp [fsLookup, fsWrite, List.find?_cons_of_neg, hpq]

theorem fsExists_fsWrite_same (fs : FileSystem) (p c : String) :
    fsExists (fsWrite fs p c) p = true := by
  simp [fsExists, fsLookup_fsWrite_same]

theorem fsExists_of_lookup (fs : FileSystem) (p : String)
    (h : fsLookup fs p ≠ none) : fsExists fs p = true := by
  simp [fsExists, Option.isSome_iff_ne_none, h]

theorem fsExists_false_of_fresh (fs : FileSystem) (dir f : String)
    (hfresh : ∀ e ∈ fs, underDir dir e.1 = false)
    (hf : underDir dir f = true) : fsExists fs f = false := by
  unfold fsExists fsLookup
  cases hfind : fs.find? (fun e => e.1 == f) with
  | none => simp
  | some e =>
    exfalso
    have hmem : e ∈ fs := List.mem_of_find?_eq_some hfind
    have heq := List.find?_some hfind
    have h1 : e.1 = f := by simpa using heq
    have h2 := hfresh e hmem
    rw [h1] at h2
    rw [h2] at hf
    exact Bool.false_ne_true hf

/-! ## Staging lemmas -/

theorem stagedName_length (dir : String) (i : Nat) :
    (stagedName dir i).length = dir.length + 1 + i + 4 := by
  simp [stagedName, String.length_append]
  have h1 : "/".length = 1 := rfl
  have h2 : ".edp".length = 4 := rfl
  omega

theorem stagedName_inj (dir : String) (i j : Nat)
    (h : stagedName dir i = stagedName dir j) : i = j := by
  have hl := congrArg String.length h
  rw [stagedName_length, stagedName_length] at hl
  omega

theorem underDir_stagedName (dir : String) (i : Nat) :
    underDir dir (stagedName dir i) = true := by
  unfold underDir stagedName
  rw [List.isPrefixOf_iff_prefix]
  have hsplit : (dir ++ "/" ++ String.mk (List.replicate i 'f') ++ ".edp").toList
      = (dir ++ "/").toList ++ (String.mk (List.replicate i 'f') ++ ".edp").toList := by
    simp [String.toList, String.data_append, List.append_assoc]
  rw [hsplit]
  exact List.prefix_append _ _

theorem fsRemoveTree_fsWrite_under (fs : FileSystem) (dir p c : String)
    (h : underDir dir p = true) :
    fsRemoveTree (fsWrite fs p c) dir = fsRemoveTree fs dir := by
  simp [fsRemoveTree, fsWrite, List.filter_cons, h]

theorem fsRemoveTree_fresh (fs : FileSystem) (dir : String)
    (h : ∀ e ∈ fs, underDir dir e.1 = false) :
    fsRemoveTree fs dir = fs := by
  unfold fsRemoveTree
  rw [List.filter_eq_self]
  intro e he
  simp [h e he]

theorem stageFiles_fst (dir : String) :
    ∀ (cs : List String) (i : Nat) (fs : FileSystem),
      (stageFiles dir cs i fs).1 = (List.range' i cs.length).map (stagedName dir) := by
  intro cs
  induction cs with
  | nil => intro i fs; simp [stageFiles]
  | cons c cs ih =>
    intro i fs
    simp [stageFiles, List.range'_succ, ih]

theorem stageFiles_removeTree (dir : String) :
    ∀ (cs : List String) (i : Nat) (fs : FileSystem),
      fsRemoveTree (stageFiles dir cs i fs).2 dir = fsRemoveTree fs dir := by
  intro cs
  induction cs with
  | nil => intro i fs; rfl
  | cons c cs ih =>
    intro i fs
    show fsRemoveTree (stageFiles dir cs (i + 1) (fsWrite fs (stagedName dir i) c)).2 dir = _
    rw [ih]
    exact fsRemoveTree_fsWrite_under fs dir _ c (underDir_stagedName dir i)

theorem stageFiles_lookup_other (dir : String) :
    ∀ (cs : List String) (i : Nat) (fs : FileSystem) (p : String),
      (∀ j, i ≤ j → p ≠ stagedName dir j) →
      fsLookup (stageFiles dir cs i fs).2 p = fsLookup fs p := by
  intro cs
  induction cs with
  | nil => intro i fs p _; rfl
  | cons c cs ih =>
    intro i fs p hp
    show fsLookup (stageFiles dir cs (i + 1) (fsWrite fs (stagedName dir i) c)).2 p = _
    rw [ih (i + 1) _ p (fun j hj => hp j (Nat.le_of_succ_le hj))]
    exact fsLookup_fsWrite_other fs (stagedName dir i) p c (hp i (Nat.le_refl i))

theorem stageFiles_lookup (dir : String) :
    ∀ (cs : List String) (j i : Nat) (fs : FileSystem), j < cs.length →
      fsLookup (stageFiles dir cs i fs).2 (stagedName dir (i + j)) = cs[j]? := by
  intro cs
  induction cs with
  | nil => intro j i fs h; simp at h
  | cons c cs ih =>
    intro j i fs h
    cases j with
    | zero =>
      show fsLookup (stageFiles dir cs (i + 1)
          (fsWrite fs (stagedName dir i) c)).2 (stagedName dir (i + 0)) = _
      rw [stageFiles_lookup_other dir cs (i + 1) _ _ ?hne]
      case hne =>
        intro k hk heq
        have := stagedName_inj dir (i + 0) k heq
        omega
      simp [fsLookup_fsWrite_same]
    | succ j' =>
      have hadd : i + (j' + 1) = (i + 1) + j' := by omega
      rw [hadd]
      show fsLookup (stageFiles dir cs (i + 1)
          (fsWrite fs (stagedName dir i) c)).2 (stagedName dir ((i + 1) + j')) = _
      rw [ih j' (i + 1) _ (by simpa using h)]
      simp

/-! ## Claim theorems: process runners -/

/-- C1: whenever the child spawned by `run_ff_file`, `convert_png` or
`convert_svg` exits with a non-zero status, the operation raises
`FreeFemException` whose message is exactly the child's captured standard
output (and not its standard error). -/
theorem nonzero_exit_raises_exception_with_stdout
    (fs : FileSystem) (proc : Oracle) (p : String)
    (hex : fsExists fs p = true) :
    ((proc (ffArgv p)).returncode ≠ 0 →
      (run_ff_file fs proc p).1
        = Except.error (FFError.freeFemException (proc (ffArgv p)).stdout)) ∧
    ((proc (pngArgv p)).returncode ≠ 0 →
      (convert_png fs proc p).1
        = Except.error (FFError.freeFemException (proc (pngArgv p)).stdout)) ∧
    ((proc (svgArgv p)).returncode ≠ 0 →
      (convert_svg fs proc p).1
        = Except.error (FFError.freeFemException (proc (svgArgv p)).stdout)) := by
  refine ⟨fun h => ?_, fun h => ?_, fun h => ?_⟩ <;>
    simp [run_ff_file, convert_png, convert_svg, hex, h]

/-- Witness for C1: a file that exists, an interpreter exiting with status 2,
stdout `"syntax error line 4"`, stderr `"boom"` — the raised error carries
the stdout text. -/
theorem nonzero_exit_raises_exception_with_stdout_witness :
    fsExists [("f.edp", "x")] "f.edp" = true ∧
    (run_ff_file [("f.edp", "x")]
        (fun _ => ⟨2, "syntax error line 4", "boom"⟩) "f.edp").1
      = Except.error (FFError.freeFemException "syntax error line 4") :=
  ⟨rfl,
    (nonzero_exit_raises_exception_with_stdout [("f.edp", "x")]
        (fun _ => ⟨2, "syntax error line 4", "boom"⟩) "f.edp" rfl).1 (by decide)⟩

/-- C2 (code behaviour at a missing input path): `run_ff_file` raises the
documented `IOError "File not found: <path>"` and spawns nothing, but
`convert_png` and `convert_svg` instead evaluate the unbound name `ff_file`
while building that message and so raise `NameError` — still spawning
nothing. -/
theorem missing_input_behavior :
    run_ff_file [] (fun _ => ⟨0, "", ""⟩) "missing.eps"
      = (Except.error (FFError.ioError "File not found: missing.eps"), []) ∧
    convert_png [] (fun _ => ⟨0, "", ""⟩) "missing.eps"
      = (Except.error (FFError.nameError "ff_file"), []) ∧
    convert_svg [] (fun _ => ⟨0, "", ""⟩) "missing.eps"
      = (Except.error (FFError.nameError "ff_file"), []) :=
  ⟨rfl, rfl, rfl⟩

/-- C7: whenever the interpreter exits with status zero, `run_ff_file`
raises nothing, returns the fully captured standard output, and also emits
it as a printed trace. -/
theorem zero_exit_returns_stdout
    (fs : FileSystem) (proc : Oracle) (p : String)
    (hex : fsExists fs p = true)
    (hrc : (proc (ffArgv p)).returncode = 0) :
    run_ff_file fs proc p
      = (Except.ok (proc (ffArgv p)).stdout,
          [Event.spawn (ffArgv p), Event.printed (proc (ffArgv p)).stdout]) := by
  simp [run_ff_file, hex, hrc]

/-- Witness for C7: a zero exit status returns stdout `"all good"` and
prints it. -/
theorem zero_exit_returns_stdout_witness :
    fsExists [("f.edp", "x")] "f.edp" = true ∧
    run_ff_file [("f.edp", "x")] (fun _ => ⟨0, "all good", "noise"⟩) "f.edp"
      = (Except.ok "all good",
          [Event.spawn (ffArgv "f.edp"), Event.printed "all good"]) :=
  ⟨rfl,
    zero_exit_returns_stdout [("f.edp", "x")]
      (fun _ => ⟨0, "all good", "noise"⟩) "f.edp" rfl rfl⟩

/-- C3: constructing a `TemporaryFreeFemFile` from a non-empty batch stages
exactly one uniquely named `.edp` file per input string inside the fresh
scratch directory, each containing exactly that string's bytes, and
`__exit__` removes the scratch directory and everything in it
unconditionally — the removal ignores the exception information, restores
the previous filesystem, and none of the staged files exist afterwards. -/
theorem staging_one_file_per_input_and_exit_removes_all
    (fs : FileSystem) (dir : String) (l : List String)
    (t : TemporaryFreeFemFile) (fs' : FileSystem)
    (_hne : l ≠ [])
    (hfresh : ∀ e ∈ fs, underDir dir e.1 = false)
    (hinit : tffInit fs dir (FFCodes.batch l) = (t, fs')) :
    t.ff_files.length = l.length ∧
    t.ff_files.Nodup ∧
    (∀ f ∈ t.ff_files, underDir dir f = true ∧ ∃ base, f = base ++ ".edp") ∧
    (∀ i, i < l.length →
      t.ff_files[i]? = some (stagedName dir i) ∧
      fsLookup fs' (stagedName dir i) = l[i]?) ∧
    (∀ e₁ e₂ : Option FFError, tffExit t fs' e₁ = tffExit t fs' e₂) ∧
    (∀ e : Option FFError, tffExit t fs' e = fs) ∧
    (∀ e : Option FFError, ∀ f ∈ t.ff_files, fsExists (tffExit t fs' e) f = false) := by
  rw [Prod.ext_iff] at hinit
  obtain ⟨ht, hfs⟩ := hinit
  subst ht
  subst hfs
  have hfiles : (tffInit fs dir (FFCodes.batch l)).1.ff_files
      = (List.range l.length).map (stagedName dir) := by
    show (stageFiles dir (normalizeCodes (FFCodes.batch l)) 0 fs).1 = _
    rw [List.range_eq_range']
    exact stageFiles_fst dir l 0 fs
  have hdir : (tffInit fs dir (FFCodes.batch l)).1.tmp_dir = dir := rfl
  have hsnd : (tffInit fs dir (FFCodes.batch l)).2 = (stageFiles dir l 0 fs).2 := rfl
  have hmem : ∀ f ∈ (tffInit fs dir (FFCodes.batch l)).1.ff_files,
      ∃ i, f = stagedName dir i := by
    intro f hf
    rw [hfiles] at hf
    obtain ⟨i, _, hi⟩ := List.mem_map.mp hf
    exact ⟨i, hi.symm⟩
  have hexit : ∀ e : Option FFError,
      tffExit (tffInit fs dir (FFCodes.batch l)).1
        (tffInit fs dir (FFCodes.batch l)).2 e = fs := by
    intro e
    show fsRemoveTree (tffInit fs dir (FFCodes.batch l)).2
        (tffInit fs dir (FFCodes.batch l)).1.tmp_dir = fs
    rw [hdir, hsnd, stageFiles_removeTree dir l 0 fs]
    exact fsRemoveTree_fresh fs dir hfresh
  refine ⟨?_, ?_, ?_, ?_, ?_, hexit, ?_⟩
  · rw [hfiles]
    simp
  · rw [hfiles]
    exact (List.nodup_range _).map (fun i j h => stagedName_inj dir i j h)
  · intro f hf
    obtain ⟨i, hi⟩ := hmem f hf
    subst hi
    exact ⟨underDir_stagedName dir i,
      ⟨dir ++ "/" ++ String.mk (List.replicate i 'f'), rfl⟩⟩
  · intro i hilt
    constructor
    · rw [hfiles]
      simp [List.getElem?_map, List.getElem?_range hilt]
    · rw [hsnd]
      have := stageFiles_lookup dir l i 0 fs hilt
      simpa using this
  · intro e₁ e₂
    rfl
  · intro e f hf
    rw [hexit e]
    obtain ⟨i, hi⟩ := hmem f hf
    subst hi
    exact fsExists_false_of_fresh fs dir _ hfresh (underDir_stagedName dir i)

/-- Witness for C3: staging the batch `["a", "b"]` in scratch directory `"d"`
over the empty filesystem creates the two distinct files `d/.edp` and
`d/f.edp` with those contents, and every `__exit__` restores the empty
filesystem. -/
theorem staging_one_file_per_input_and_exit_removes_all_witness :
    (["a", "b"] : List String) ≠ [] ∧
    (∀ e ∈ ([] : FileSystem), underDir "d" e.1 = false) ∧
    tffInit [] "d" (FFCodes.batch ["a", "b"])
      = (⟨"d", ["d/.edp", "d/f.edp"]⟩, [("d/f.edp", "b"), ("d/.edp", "a")]) ∧
    (⟨"d", ["d/.edp", "d/f.edp"]⟩ : TemporaryFreeFemFile).ff_files.length = 2 ∧
    (∀ e : Option FFError,
      tffExit ⟨"d", ["d/.edp", "d/f.edp"]⟩ [("d/f.edp", "b"), ("d/.edp", "a")] e = []) := by
  have h := staging_one_file_per_input_and_exit_removes_all [] "d" ["a", "b"]
    ⟨"d", ["d/.edp", "d/f.edp"]⟩ [("d/f.edp", "b"), ("d/.edp", "a")]
    (by simp) (by simp) (by decide)
  exact ⟨by simp, by simp, by decide, h.1, h.2.2.2.2.2.1⟩

/-! ## Dispatcher lemmas -/

theorem stageCell_fst (fs : FileSystem) (args : Args) (cell : Option String) :
    (stageCell fs args cell).1
      = if cell.isSome && truthy args.write then args.write.getD "" ++ ".edp"
        else "temp.edp" := by
  cases cell <;> simp [stageCell]

theorem stageCell_fs_eq (fs : FileSystem) (args : Args) (cell : Option String) :
    (stageCell fs args cell).2.1
      = match cell with
        | none => fs
        | some c => fsWrite fs (stageCell fs args cell).1 c := by
  cases cell <;> rfl

theorem stageCell_events_eq (fs : FileSystem) (args : Args) (cell : Option String) :
    (stageCell fs args cell).2.2
      = match cell with
        | none => []
        | some c => [Event.fswrite (stageCell fs args cell).1 c] := by
  cases cell <;> rfl

theorem run_ff_file_snd_shape (fs : FileSystem) (proc : Oracle) (f : String) :
    ∀ ev ∈ (run_ff_file fs proc f).2,
      (∃ a, ev = Event.spawn a) ∨ (∃ s, ev = Event.printed s) := by
  intro ev hev
  unfold run_ff_file at hev
  by_cases h : fsExists fs f
  · rw [if_pos h] at hev
    by_cases h2 : (proc (ffArgv f)).returncode = 0
    · simp [h2] at hev
      rcases hev with h3 | h3
      · exact Or.inl ⟨_, h3⟩
      · exact Or.inr ⟨_, h3⟩
    · simp [h2] at hev
      exact Or.inl ⟨_, hev⟩
  · rw [if_neg h] at hev
    simp at hev

theorem convert_png_snd_shape (fs : FileSystem) (proc : Oracle) (f : String) :
    ∀ ev ∈ (convert_png fs proc f).2,
      (∃ a, ev = Event.spawn a) ∨ (∃ s, ev = Event.printed s) := by
  intro ev hev
  unfold convert_png at hev
  by_cases h : fsExists fs f
  · rw [if_pos h] at hev
    by_cases h2 : (proc (pngArgv f)).returncode = 0
    · simp [h2] at hev
      rcases hev with h3 | h3
      · exact Or.inl ⟨_, h3⟩
      · exact Or.inr ⟨_, h3⟩
    · simp [h2] at hev
      exact Or.inl ⟨_, hev⟩
  · rw [if_neg h] at hev
    simp at hev

theorem convert_svg_snd_shape (fs : FileSystem) (proc : Oracle) (f : String) :
    ∀ ev ∈ (convert_svg fs proc f).2,
      (∃ a, ev = Event.spawn a) ∨ (∃ s, ev = Event.printed s) := by
  intro ev hev
  unfold convert_svg at hev
  by_cases h : fsExists fs f
  · rw [if_pos h] at hev
    by_cases h2 : (proc (svgArgv f)).returncode = 0
    · simp [h2] at hev
      rcases hev with h3 | h3
      · exact Or.inl ⟨_, h3⟩
      · exact Or.inr ⟨_, h3⟩
    · simp [h2] at hev
      exact Or.inl ⟨_, hev⟩
  · rw [if_neg h] at hev
    simp at hev

theorem run_ff_file_spawn_mem (fs : FileSystem) (proc : Oracle) (f : String)
    (hex : fsExists fs f = true) :
    Event.spawn (ffArgv f) ∈ (run_ff_file fs proc f).2 := by
  unfold run_ff_file
  rw [if_pos hex]
  by_cases h2 : (proc (ffArgv f)).returncode = 0 <;> simp [h2]

theorem freefem_cases (fs : FileSystem) (proc : Oracle) (args : Args)
    (cell : Option String) :
    ∃ tail : List Event,
      (freefem fs proc args cell).2.2
        = (stageCell fs args cell).2.2
          ++ (run_ff_file (stageCell fs args cell).2.1 proc
                (overrideFile args (stageCell fs args cell).1)).2 ++ tail ∧
      (freefem fs proc args cell).2.1 = (stageCell fs args cell).2.1 ∧
      (∀ ev ∈ tail, (∃ a, ev = Event.spawn a) ∨ (∃ s, ev = Event.printed s)) := by
  rcases hrun : (run_ff_file (stageCell fs args cell).2.1 proc
      (overrideFile args (stageCell fs args cell).1)).1 with e | s
  · exact ⟨[], by simp [freefem, hrun], by simp [freefem, hrun], by simp⟩
  · by_cases hd : truthy args.display
    · rcases hconv : (convert_png (stageCell fs args cell).2.1 proc
          (args.display.getD "")).1 with e2 | p
      · exact ⟨(convert_png (stageCell fs args cell).2.1 proc (args.display.getD "")).2,
          by simp [freefem, hrun, hd, hconv],
          by simp [freefem, hrun, hd, hconv],
          convert_png_snd_shape _ _ _⟩
      · exact ⟨(convert_png (stageCell fs args cell).2.1 proc (args.display.getD "")).2,
          by simp [freefem, hrun, hd, hconv],
          by simp [freefem, hrun, hd, hconv],
          convert_png_snd_shape _ _ _⟩
    · by_cases hsvg : truthy args.displaysvg
      · rcases hconv : (convert_svg (stageCell fs args cell).2.1 proc
            (args.displaysvg.getD "")).1 with e2 | p
        · exact ⟨(convert_svg (stageCell fs args cell).2.1 proc (args.displaysvg.getD "")).2,
            by simp [freefem, hrun, hd, hsvg, hconv],
            by simp [freefem, hrun, hd, hsvg, hconv],
            convert_svg_snd_shape _ _ _⟩
        · exact ⟨(convert_svg (stageCell fs args cell).2.1 proc (args.displaysvg.getD "")).2,
            by simp [freefem, hrun, hd, hsvg, hconv],
            by simp [freefem, hrun, hd, hsvg, hconv],
            convert_svg_snd_shape _ _ _⟩
      · exact ⟨[], by simp [freefem, hrun, hd, hsvg], by simp [freefem, hrun, hd, hsvg],
          by simp⟩

theorem freefem_events_classify (fs : FileSystem) (proc : Oracle) (args : Args)
    (cell : Option String) :
    ∀ ev ∈ (freefem fs proc args cell).2.2,
      (∃ c, cell = some c ∧ ev = Event.fswrite (stageCell fs args cell).1 c) ∨
      (∃ a, ev = Event.spawn a) ∨ (∃ s, ev = Event.printed s) := by
  obtain ⟨tail, htrace, -, htail⟩ := freefem_cases fs proc args cell
  intro ev hev
  rw [htrace] at hev
  rcases List.mem_append.mp hev with h | h
  · rcases List.mem_append.mp h with h | h
    · rw [stageCell_events_eq] at h
      cases cell with
      | none => simp at h
      | some c =>
        simp only [List.mem_singleton] at h
        exact Or.inl ⟨c, rfl, h⟩
    · exact Or.inr (run_ff_file_snd_shape _ _ _ ev h)
  · exact Or.inr (htail ev h)

theorem freefem_fs_eq (fs : FileSystem) (proc : Oracle) (args : Args)
    (cell : Option String) :
    (freefem fs proc args cell).2.1 = (stageCell fs args cell).2.1 := by
  obtain ⟨-, -, h, -⟩ := freefem_cases fs proc args cell
  exact h

theorem freefem_run_events_mem (fs : FileSystem) (proc : Oracle) (args : Args)
    (cell : Option String) :
    ∀ ev ∈ (run_ff_file (stageCell fs args cell).2.1 proc
        (overrideFile args (stageCell fs args cell).1)).2,
      ev ∈ (freefem fs proc args cell).2.2 := by
  obtain ⟨tail, htrace, -, -⟩ := freefem_cases fs proc args cell
  intro ev hev
  rw [htrace]
  exact List.mem_append.mpr (Or.inl (List.mem_append.mpr (Or.inr hev)))

/-- C8: staging a bare string is identical to staging the one-element batch
containing it — same staged-file set, same filesystem, and hence the same
scratch-directory lifetime on exit. -/
theorem single_string_equals_singleton_batch
    (fs : FileSystem) (dir s : String) :
    tffInit fs dir (FFCodes.single s) = tffInit fs dir (FFCodes.batch [s]) ∧
    (∀ e : Option FFError,
      tffExit (tffInit fs dir (FFCodes.single s)).1
          (tffInit fs dir (FFCodes.single s)).2 e
        = tffExit (tffInit fs dir (FFCodes.batch [s])).1
            (tffInit fs dir (FFCodes.batch [s])).2 e) :=
  ⟨rfl, fun _ => rfl⟩

/-- C4: the script path is resolved in order — default candidate
`'temp.edp'`; with a cell body and a truthy `write` flag the candidate
becomes `<write-root>.edp` and the body is written there; a truthy
positional `ff_file` overrides the candidate regardless of the body; and the
interpreter is invoked on the resolved path. -/
theorem script_resolution_order (fs : FileSystem) (proc : Oracle) (args : Args)
    (cell : Option String)
    (hex : fsExists (stageCell fs args cell).2.1
        (overrideFile args (stageCell fs args cell).1) = true) :
    overrideFile args (stageCell fs args cell).1
      = (if truthy args.ff_file then args.ff_file.getD ""
         else if cell.isSome && truthy args.write then args.write.getD "" ++ ".edp"
         else "temp.edp") ∧
    (∀ c, cell = some c → truthy args.write = true →
      fsLookup (stageCell fs args cell).2.1 (args.write.getD "" ++ ".edp") = some c) ∧
    Event.spawn (ffArgv (overrideFile args (stageCell fs args cell).1))
      ∈ (freefem fs proc args cell).2.2 := by
  refine ⟨?_, ?_, ?_⟩
  · rw [overrideFile, stageCell_fst]
  · intro c hc hw
    subst hc
    simp [stageCell, hw, fsLookup_fsWrite_same]
  · exact freefem_run_events_mem fs proc args cell _ (run_ff_file_spawn_mem _ proc _ hex)

/-- Witness for C4: cell body plus both `--write=w` and a positional
`run.edp` — the positional file wins the resolution, the body is still
written to `w.edp`, and the interpreter spawn on `run.edp` is in the
trace. -/
theorem script_resolution_order_witness :
    fsExists (stageCell [("run.edp", "x")] ⟨some "run.edp", none, none, some "w"⟩
        (some "body")).2.1
      (overrideFile ⟨some "run.edp", none, none, some "w"⟩
        (stageCell [("run.edp", "x")] ⟨some "run.edp", none, none, some "w"⟩
          (some "body")).1) = true ∧
    overrideFile ⟨some "run.edp", none, none, some "w"⟩
        (stageCell [("run.edp", "x")] ⟨some "run.edp", none, none, some "w"⟩
          (some "body")).1 = "run.edp" ∧
    fsLookup (stageCell [("run.edp", "x")] ⟨some "run.edp", none, none, some "w"⟩
        (some "body")).2.1 "w.edp" = some "body" := by
  have h := script_resolution_order [("run.edp", "x")]
    (fun _ => ⟨0, "", ""⟩) ⟨some "run.edp", none, none, some "w"⟩ (some "body") (by decide)
  exact ⟨by decide, by decide, h.2.1 "body" rfl (by decide)⟩

/-- C5: after a successful interpreter step, a truthy `display` flag makes
the command ignore `displaysvg` entirely (the raster branch alone is taken)
and return a raster handle on `<display-path>.png` when the converter exits
zero; with `display` falsy, a truthy `displaysvg` returns a vector handle on
`<displaysvg-path>.svg`; with both falsy, the command returns nothing. -/
theorem display_flag_dispatch (fs : FileSystem) (proc : Oracle) (args : Args)
    (cell : Option String)
    (hex : fsExists (stageCell fs args cell).2.1
        (overrideFile args (stageCell fs args cell).1) = true)
    (hrc : (proc (ffArgv (overrideFile args (stageCell fs args cell).1))).returncode = 0) :
    (truthy args.display = true →
      freefem fs proc args cell
        = freefem fs proc ⟨args.ff_file, args.display, none, args.write⟩ cell) ∧
    (∀ d, args.display = some d → d.isEmpty = false →
      fsExists (stageCell fs args cell).2.1 d = true →
      (proc (pngArgv d)).returncode = 0 →
      (freefem fs proc args cell).1
        = Except.ok (some (DisplayHandle.image (d ++ ".png")))) ∧
    (truthy args.display = false →
      ∀ d, args.displaysvg = some d → d.isEmpty = false →
      fsExists (stageCell fs args cell).2.1 d = true →
      (proc (svgArgv d)).returncode = 0 →
      (freefem fs proc args cell).1
        = Except.ok (some (DisplayHandle.svg (d ++ ".svg")))) ∧
    (truthy args.display = false → truthy args.displaysvg = false →
      (freefem fs proc args cell).1 = Except.ok none) := by
  refine ⟨?_, ?_, ?_, ?_⟩
  · intro hd
    have hstage : stageCell fs ⟨args.ff_file, args.display, none, args.write⟩ cell
        = stageCell fs args cell := by
      cases cell <;> rfl
    have hover : ∀ f, overrideFile ⟨args.ff_file, args.display, none, args.write⟩ f
        = overrideFile args f := fun f => rfl
    simp [freefem, hstage, hover, hd]
  · intro d hd hdne hex2 hrc2
    have hts : truthy (some d) = true := by simp [truthy, hdne]
    simp [freefem, run_ff_file, hex, hrc, hd, hts, convert_png, hex2, hrc2]
  · intro hd d hdsvg hdne hex2 hrc2
    have hts : truthy (some d) = true := by simp [truthy, hdne]
    simp [freefem, run_ff_file, hex, hrc, hd, hdsvg, hts, convert_svg, hex2, hrc2]
  · intro hd hdsvg
    simp [freefem, run_ff_file, hex, hrc, hd, hdsvg]

/-- Witness for C5: `--display=plot.eps` with `--displaysvg=v.eps` also
given, an existing `plot.eps` and converters exiting 0 — the command returns
a raster handle on `plot.eps.png`, and the invocation equals the one with
`displaysvg` dropped. -/
theorem display_flag_dispatch_witness :
    fsExists (stageCell [("temp.edp", "s"), ("plot.eps", "e")]
        ⟨none, some "plot.eps", some "v.eps", none⟩ none).2.1
      (overrideFile ⟨none, some "plot.eps", some "v.eps", none⟩
        (stageCell [("temp.edp", "s"), ("plot.eps", "e")]
          ⟨none, some "plot.eps", some "v.eps", none⟩ none).1) = true ∧
    (freefem [("temp.edp", "s"), ("plot.eps", "e")] (fun _ => ⟨0, "out", "err"⟩)
        ⟨none, some "plot.eps", some "v.eps", none⟩ none).1
      = Except.ok (some (DisplayHandle.image "plot.eps.png")) ∧
    freefem [("temp.edp", "s"), ("plot.eps", "e")] (fun _ => ⟨0, "out", "err"⟩)
        ⟨none, some "plot.eps", some "v.eps", none⟩ none
      = freefem [("temp.edp", "s"), ("plot.eps", "e")] (fun _ => ⟨0, "out", "err"⟩)
          ⟨none, some "plot.eps", none, none⟩ none := by
  have h := display_flag_dispatch [("temp.edp", "s"), ("plot.eps", "e")]
    (fun _ => ⟨0, "out", "err"⟩) ⟨none, some "plot.eps", some "v.eps", none⟩ none
    (by decide) (by decide)
  exact ⟨by decide, h.2.1 "plot.eps" rfl (by decide) (by decide) (by decide),
    h.1 (by decide)⟩

/-- C6: a cell body submitted with a truthy `--write=w` flag and no
positional file leaves `w.edp` containing exactly the body on the resulting
filesystem, and the interpreter is spawned on `w.edp`. -/
theorem write_flag_persists_and_runs (fs : FileSystem) (proc : Oracle)
    (args : Args) (body w : String)
    (hw : args.write = some w) (hwne : w.isEmpty = false)
    (hff : args.ff_file = none) :
    fsLookup (freefem fs proc args (some body)).2.1 (w ++ ".edp") = some body ∧
    Event.spawn (ffArgv (w ++ ".edp")) ∈ (freefem fs proc args (some body)).2.2 := by
  have htw : truthy (some w) = true := by simp [truthy, hwne]
  have hcand : (stageCell fs args (some body)).1 = w ++ ".edp" := by
    simp [stageCell, hw, htw]
  have hstfs : (stageCell fs args (some body)).2.1 = fsWrite fs (w ++ ".edp") body := by
    simp [stageCell, hw, htw]
  have hov : overrideFile args (stageCell fs args (some body)).1 = w ++ ".edp" := by
    simp [overrideFile, truthy, hff, hcand]
  constructor
  · rw [freefem_fs_eq, hstfs]
    exact fsLookup_fsWrite_same fs (w ++ ".edp") body
  · have hex : fsExists (stageCell fs args (some body)).2.1
        (overrideFile args (stageCell fs args (some body)).1) = true := by
      rw [hstfs, hov]
      exact fsExists_fsWrite_same fs (w ++ ".edp") body
    have hsp := run_ff_file_spawn_mem (stageCell fs args (some body)).2.1 proc
      (overrideFile args (stageCell fs args (some body)).1) hex
    have hmem := freefem_run_events_mem fs proc args (some body) _ hsp
    rwa [hov] at hmem

/-- Witness for C6: body `"real a; a=1;"` with `--write=out` over the empty
filesystem — afterwards `out.edp` holds the body and the interpreter spawn
on `out.edp` is in the trace. -/
theorem write_flag_persists_and_runs_witness :
    (⟨none, none, none, some "out"⟩ : Args).write = some "out" ∧
    fsLookup (freefem [] (fun _ => ⟨0, "", ""⟩) ⟨none, none, none, some "out"⟩
        (some "real a; a=1;")).2.1 "out.edp" = some "real a; a=1;" ∧
    Event.spawn (ffArgv "out.edp")
      ∈ (freefem [] (fun _ => ⟨0, "", ""⟩) ⟨none, none, none, some "out"⟩
          (some "real a; a=1;")).2.2 := by
  have h := write_flag_persists_and_runs [] (fun _ => ⟨0, "", ""⟩)
    ⟨none, none, none, some "out"⟩ "real a; a=1;" "out" rfl (by decide) rfl
  exact ⟨rfl, h.1, h.2⟩

/-- C9: the dispatcher never touches the temporary staging component — no
scratch directory is created or removed in its trace — and the only
filesystem write it performs itself is the resolved candidate script
(`'temp.edp'`, or `<write-root>.edp` under a truthy `write` flag) when a
cell body is present; that file persists on the resulting filesystem. -/
theorem dispatcher_never_stages_temporaries (fs : FileSystem) (proc : Oracle)
    (args : Args) (cell : Option String) :
    (∀ d, Event.mkdtemp d ∉ (freefem fs proc args cell).2.2 ∧
          Event.rmtree d ∉ (freefem fs proc args cell).2.2) ∧
    (∀ p c, Event.fswrite p c ∈ (freefem fs proc args cell).2.2 →
      cell = some c ∧
      p = (if cell.isSome && truthy args.write then args.write.getD "" ++ ".edp"
           else "temp.edp")) ∧
    ((freefem fs proc args cell).2.1
      = match cell with
        | none => fs
        | some c =>
          fsWrite fs (if truthy args.write then args.write.getD "" ++ ".edp"
                      else "temp.edp") c) ∧
    (∀ c, cell = some c →
      fsLookup (freefem fs proc args cell).2.1
        (if truthy args.write then args.write.getD "" ++ ".edp" else "temp.edp")
        = some c) := by
  have hclass := freefem_events_classify fs proc args cell
  refine ⟨?_, ?_, ?_, ?_⟩
  · intro d
    constructor
    · intro hmem
      rcases hclass _ hmem with ⟨c, -, h⟩ | ⟨a, h⟩ | ⟨s, h⟩ <;> exact Event.noConfusion h
    · intro hmem
      rcases hclass _ hmem with ⟨c, -, h⟩ | ⟨a, h⟩ | ⟨s, h⟩ <;> exact Event.noConfusion h
  · intro p c hmem
    rcases hclass _ hmem with ⟨c', hc', h⟩ | ⟨a, h⟩ | ⟨s, h⟩
    · obtain ⟨hp, hcc⟩ := Event.fswrite.inj h
      subst hcc
      refine ⟨hc', ?_⟩
      rw [hp, stageCell_fst]
    · exact Event.noConfusion h
    · exact Event.noConfusion h
  · rw [freefem_fs_eq, stageCell_fs_eq]
    cases cell with
    | none => rfl
    | some c => rw [stageCell_fst]; simp
  · intro c hc
    subst hc
    rw [freefem_fs_eq, stageCell_fs_eq]
    have : (stageCell fs args (some c)).1
        = if truthy args.write then args.write.getD "" ++ ".edp" else "temp.edp" := by
      rw [stageCell_fst]; simp
    rw [this]
    exact fsLookup_fsWrite_same _ _ _

/-- C10: with both a cell body and a truthy positional `ff_file`, the body is
written to the candidate path first (it is the first event of the trace and
that file ends up holding the body), while the interpreter runs on the
positional path. -/
theorem body_written_even_when_positional_overrides (fs : FileSystem)
    (proc : Oracle) (args : Args) (c g : String)
    (hff : args.ff_file = some g) (hgne : g.isEmpty = false)
    (hex : fsExists (fsWrite fs
        (if truthy args.write then args.write.getD "" ++ ".edp" else "temp.edp") c)
        g = true) :
    ((freefem fs proc args (some c)).2.2).head?
      = some (Event.fswrite
          (if truthy args.write then args.write.getD "" ++ ".edp" else "temp.edp") c) ∧
    fsLookup (freefem fs proc args (some c)).2.1
      (if truthy args.write then args.write.getD "" ++ ".edp" else "temp.edp")
      = some c ∧
    Event.spawn (ffArgv g) ∈ (freefem fs proc args (some c)).2.2 := by
  have hcand : (stageCell fs args (some c)).1
      = if truthy args.write then args.write.getD "" ++ ".edp" else "temp.edp" := by
    rw [stageCell_fst]; simp
  have hstfs : (stageCell fs args (some c)).2.1
      = fsWrite fs (stageCell fs args (some c)).1 c := by
    rw [stageCell_fs_eq]
  have hov : overrideFile args (stageCell fs args (some c)).1 = g := by
    simp [overrideFile, truthy, hff, hgne]
  obtain ⟨tail, htrace, -, -⟩ := freefem_cases fs proc args (some c)
  refine ⟨?_, ?_, ?_⟩
  · rw [htrace, stageCell_events_eq]
    simp [hcand]
  · rw [freefem_fs_eq, hstfs, hcand]
    exact fsLookup_fsWrite_same _ _ _
  · have hex' : fsExists (stageCell fs args (some c)).2.1
        (overrideFile args (stageCell fs args (some c)).1) = true := by
      rw [hstfs, hov, hcand]
      exact hex
    have hsp := run_ff_file_spawn_mem (stageCell fs args (some c)).2.1 proc
      (overrideFile args (stageCell fs args (some c)).1) hex'
    have hmem := freefem_run_events_mem fs proc args (some c) _ hsp
    rwa [hov] at hmem

/-- Witness for C10: body `"body"` with positional `other.edp` (which
exists) and no `write` flag — `temp.edp` ends up holding the body, the write
is the first event, and the interpreter spawn on `other.edp` is in the
trace. -/
theorem body_written_even_when_positional_overrides_witness :
    (⟨some "other.edp", none, none, none⟩ : Args).ff_file = some "other.edp" ∧
    fsLookup (freefem [("other.edp", "x")] (fun _ => ⟨0, "", ""⟩)
        ⟨some "other.edp", none, none, none⟩ (some "body")).2.1 "temp.edp"
      = some "body" ∧
    Event.spawn (ffArgv "other.edp")
      ∈ (freefem [("other.edp", "x")] (fun _ => ⟨0, "", ""⟩)
          ⟨some "other.edp", none, none, none⟩ (some "body")).2.2 := by
  have h := body_written_even_when_positional_overrides [("other.edp", "x")]
    (fun _ => ⟨0, "", ""⟩) ⟨some "other.edp", none, none, none⟩ "body" "other.edp"
    rfl (by decide) (by decide)
  exact ⟨rfl, h.2.1, h.2.2⟩

end FreeFemMagic
